import Mathlib

/-!
Verification development for the csv-consolidator repository
(src/csv_consolidator.py).  The Python program is shallowly embedded:

* a CSV file is a named list of text lines (`InputFile`);
* a pandas `DataFrame` is a `Table`: an ordered column list plus rows,
  each row an ordered association list from column name to `Cell`
  (`Option String`, `none` modelling a missing value / `NaN` / `pd.NA`);
* Python `set` objects are modelled by their underlying element list in
  first-insertion order together with an enumeration function
  `e : List String → List String` standing for the (hash-dependent,
  run-specific) iteration order CPython uses when the code calls
  `list(all_headers)` or iterates a set; a real run corresponds to some
  `e` that permutes its input (`EnumValid`);
* `pd.to_datetime` is modelled for ISO `YYYY-MM-DD` date strings
  (`parseIsoDate`), with `None`/`NaN` cells coercing to `NaT`
  (`Option PDate` with `none` as `NaT`), and pandas `Series.min`
  skipping `NaT` (`seriesMin`); Python builtin `min`/`max` over
  timestamps, whose comparisons with `NaT` are always false, are
  `pyFoldMin`/`pyFoldMax`;
* `logging` output is modelled as a list of `LogEvent`s and the single
  interactive `input()` call by the `response` field of `RunInput`
  together with the `prompted` flag of `RunOutcome`;
* raised exceptions that escape `consolidate_csvs` are `RunResult.aborted`.
-/

namespace CsvConsolidator

/-- Checks that the first list is a prefix of the second, character by
character (helper for Python's substring test `needle in line`). -/
def charsStartWith : List Char → List Char → Bool
  | [], _ => true
  | _ :: _, [] => false
  | a :: as, b :: bs => a == b && charsStartWith as bs

/-- Checks that the needle occurs contiguously somewhere in the haystack
(helper for Python's substring test). -/
def charsContain (needle : List Char) : List Char → Bool
  | [] => charsStartWith needle []
  | b :: bs => charsStartWith needle (b :: bs) || charsContain needle bs

/-- Python's substring containment `needle in hay` on strings. -/
def containsSubstr (needle hay : String) : Bool :=
  charsContain needle.toList hay.toList

/-- Python's `s.endswith(pat)`. -/
def strEndsWith (s pat : String) : Bool :=
  charsStartWith pat.toList.reverse s.toList.reverse

/-- Splits a character list at every occurrence of the separator
(accumulator holds the current field reversed). -/
def splitCharAux (sep : Char) (acc : List Char) : List Char → List String
  | [] => [acc.reverse.asString]
  | c :: cs =>
    if c == sep then acc.reverse.asString :: splitCharAux sep [] cs
    else splitCharAux sep (c :: acc) cs

/-- Splits a string on a separator character, keeping empty fields, like
Python's `str.split` with one-character separator. -/
def splitOnChar (sep : Char) (s : String) : List String :=
  splitCharAux sep [] s.toList

/-- Lowercases a string (Python's `str.lower` over ASCII). -/
def strToLower (s : String) : String :=
  (s.toList.map Char.toLower).asString

/-- Reads a digit string as a number; `none` on empty or non-digit input. -/
def natFromChars (acc : Nat) : List Char → Option Nat
  | [] => some acc
  | c :: cs => if c.isDigit then natFromChars (acc * 10 + (c.toNat - 48)) cs else none

/-- Parses a nonempty all-digit string as a natural number. -/
def strToNat? (s : String) : Option Nat :=
  match s.toList with
  | [] => none
  | l => natFromChars 0 l

/-- Joins strings with a separator between consecutive elements. -/
def joinWith (sep : String) : List String → String
  | [] => ""
  | [x] => x
  | x :: y :: xs => x ++ sep ++ joinWith sep (y :: xs)

/-- A calendar date as produced by `pd.to_datetime` on an ISO date string
(time-of-day is irrelevant to the program's date logic). -/
structure PDate where
  year : Nat
  month : Nat
  day : Nat
deriving DecidableEq, Repr

/-- Chronological sort key of a date. -/
def PDate.key (d : PDate) : Nat := d.year * 10000 + d.month * 100 + d.day

/-- Zero-padded two-digit rendering, as in `strftime` `%m` / `%d`. -/
def pad2 (n : Nat) : String := if n < 10 then "0" ++ toString n else toString n

/-- Zero-padded four-digit rendering, as in `strftime` `%Y`. -/
def pad4 (n : Nat) : String :=
  if n < 10 then "000" ++ toString n
  else if n < 100 then "00" ++ toString n
  else if n < 1000 then "0" ++ toString n
  else toString n

/-- The program's `strftime("%m-%d-%Y")` format. -/
def fmtDate (d : PDate) : String :=
  pad2 d.month ++ "-" ++ pad2 d.day ++ "-" ++ pad4 d.year

/-- Model of `pd.to_datetime` on a single text value, restricted to the ISO
`YYYY-MM-DD` date strings used throughout this development; any other text
fails to parse (raises in pandas). -/
def parseIsoDate (s : String) : Option PDate :=
  match splitOnChar (Char.ofNat 45) s with
  | [y, m, d] =>
    match strToNat? y, strToNat? m, strToNat? d with
    | some yn, some mn, some dn =>
      if 1 ≤ yn && 1 ≤ mn && mn ≤ 12 && 1 ≤ dn && dn ≤ 31 then
        some ⟨yn, mn, dn⟩
      else none
    | _, _, _ => none
  | _ => none

/-- A cell of a data frame: `none` is a missing value (`NaN` / `pd.NA`). -/
abbrev Cell := Option String

/-- A data-frame row: column name / cell pairs in column order. -/
abbrev Row := List (String × Cell)

/-- A pandas `DataFrame`: ordered column names and rows. -/
structure Table where
  cols : List String
  rows : List Row
deriving DecidableEq, Repr

/-- Looks a column value up in a row by name (first match, as pandas
label-based alignment does); a label absent from the row reads as missing. -/
def rowGet : Row → String → Cell
  | [], _ => none
  | p :: ps, c => if p.1 == c then p.2 else rowGet ps c

/-- Membership of a column name in a column list (Python's `in`). -/
def hasCol (l : List String) (c : String) : Bool := l.any (fun x => x == c)

/-- Splits one CSV line on commas (the program relies on plain
`str.split(',')`-style separation; no quoting occurs in its data). -/
def splitCells (line : String) : List String := splitOnChar (Char.ofNat 44) line

/-- Reads one CSV field: an empty field is a missing value, as
`pd.read_csv` produces `NaN` there. -/
def mkCell (s : String) : Cell := if s = "" then none else some s

/-- Parses one data line against a header: extra fields make the read fail
(pandas tokenizer error), short lines are padded with missing values. -/
def parseRow (cols : List String) (line : String) : Option Row :=
  let fs := splitCells line
  if cols.length < fs.length then none
  else some ((cols.zip (fs ++ List.replicate (cols.length - fs.length) "")).map
    (fun p => (p.1, mkCell p.2)))

/-- Parses all data lines; any bad line fails the whole read, as
`pd.read_csv` raises. -/
def parseRows (cols : List String) : List String → Option (List Row)
  | [] => some []
  | l :: ls =>
    match parseRow cols l, parseRows cols ls with
    | some r, some rs => some (r :: rs)
    | _, _ => none

/-- Parses CSV text whose first line is the header (the behaviour of
`pd.read_csv(file, skiprows=header_index)`); blank lines are skipped as
pandas does by default. -/
def parseCsvFrom : List String → Option Table
  | [] => none
  | h :: body =>
    (parseRows (splitCells h) (body.filter (fun l => l != ""))).map
      (fun rs => ⟨splitCells h, rs⟩)

/-- The literal header marker of `read_csv_with_metadata`. -/
def markerLine : String := "ID,Timestamp,Transaction Type"

/-- Drops preamble lines until the line containing the header marker, the
loop at lines 57-60 of the source; `none` when no line has the marker. -/
def linesFromHeader : List String → Option (List String)
  | [] => none
  | l :: ls => if containsSubstr markerLine l then some (l :: ls) else linesFromHeader ls

/-- An input file: its basename and its text lines. -/
structure InputFile where
  name : String
  lines : List String
deriving DecidableEq, Repr

/-- Source `read_csv_with_metadata`: locate the marker line, then parse the
CSV from there; `none` models the raised exception. -/
def readCsv (f : InputFile) : Option Table :=
  (linesFromHeader f.lines).bind parseCsvFrom

/-- Source list `date_columns` of `get_csv_date`. -/
def dateNames : List String :=
  ["date", "timestamp", "created_at", "datetime", "time", "Timestamp"]

/-- Column-name test of `get_csv_date`: some recognised substring occurs in
the lowercased name. -/
def isDateName (c : String) : Bool :=
  dateNames.any (fun d => containsSubstr d (strToLower c))

/-- The values of column `c` of a table, row by row (`df[col]`). -/
def columnCells (t : Table) (c : String) : List Cell :=
  t.rows.map (fun r => rowGet r c)

/-- Model of `pd.to_datetime` on one cell: a missing value coerces to `NaT`
(the inner `none`), text must parse as a date or the conversion raises
(the outer `none`). -/
def parseCellDate : Cell → Option (Option PDate)
  | none => some none
  | some s => (parseIsoDate s).map some

/-- Model of `pd.to_datetime` on a whole column. -/
def parseDateColumn : List Cell → Option (List (Option PDate))
  | [] => some []
  | c :: cs =>
    match parseCellDate c, parseDateColumn cs with
    | some d, some ds => some (d :: ds)
    | _, _ => none

/-- Earlier of two dates. -/
def minKey (a b : PDate) : PDate := if b.key < a.key then b else a

/-- Later of two dates. -/
def maxKey (a b : PDate) : PDate := if a.key < b.key then b else a

/-- Model of pandas `Series.min` on datetimes: skips `NaT`, and is `NaT`
when every entry is `NaT`. -/
def seriesMin (ds : List (Option PDate)) : Option PDate :=
  match ds.filterMap id with
  | [] => none
  | x :: xs => some (xs.foldl minKey x)

/-- The column loop of source `get_csv_date` over a list of column names. -/
def getCsvDateAux (t : Table) : List String → Option (Option PDate)
  | [] => none
  | c :: cs =>
    if isDateName c then
      match parseDateColumn (columnCells t c) with
      | none => getCsvDateAux t cs
      | some ds => if ds.isEmpty then getCsvDateAux t cs else some (seriesMin ds)
    else getCsvDateAux t cs

/-- Source `get_csv_date`: the outer `none` is Python `None` (no date
column succeeded), an inner `none` is a `NaT` result. -/
def getCsvDate (t : Table) : Option (Option PDate) := getCsvDateAux t t.cols

/-- Python `<` between `pd.Timestamp`/`NaT` values: comparisons involving
`NaT` are false. -/
def pyLt : Option PDate → Option PDate → Bool
  | some a, some b => a.key < b.key
  | _, _ => false

/-- Python `>` between `pd.Timestamp`/`NaT` values. -/
def pyGt : Option PDate → Option PDate → Bool
  | some a, some b => b.key < a.key
  | _, _ => false

/-- Python builtin `min` over a nonempty list headed by `d`. -/
def pyFoldMin (d : Option PDate) (ds : List (Option PDate)) : Option PDate :=
  ds.foldl (fun c x => if pyLt x c then x else c) d

/-- Python builtin `max` over a nonempty list headed by `d`. -/
def pyFoldMax (d : Option PDate) (ds : List (Option PDate)) : Option PDate :=
  ds.foldl (fun c x => if pyGt x c then x else c) d

/-- Source `generate_date_range_filename`; the error case is the
`ValueError` raised by `strftime` on a `NaT` bound. -/
def generateDateRangeFilename (now : PDate) (dfs : List Table) : Except Unit String :=
  match dfs.filterMap getCsvDate with
  | [] => Except.ok ("consolidated_" ++ fmtDate now ++ ".csv")
  | d :: ds =>
    match pyFoldMin d ds, pyFoldMax d ds with
    | some lo, some hi =>
      Except.ok ("consolidated_" ++ fmtDate lo ++ "_thru_" ++ fmtDate hi ++ ".csv")
    | _, _ => Except.error ()

/-- Adds an element to a Python-set element list unless already present. -/
def insertNew (acc : List String) (c : String) : List String :=
  if hasCol acc c then acc else acc ++ [c]

/-- The element list, in first-insertion order, of `set(l)`. -/
def setOf (l : List String) : List String := l.foldl insertNew []

/-- The element list of `a.update(b)` / `a | b` on Python sets. -/
def pyUnion (a b : List String) : List String := b.foldl insertNew a

/-- Source `get_all_headers` (its `headers_by_file` dictionary, in file
order); the error carries the name of the first unreadable file, whose
exception the function re-raises after logging. -/
def collectHeaders : List InputFile → Except String (List (String × List String))
  | [] => Except.ok []
  | f :: fs =>
    match readCsv f with
    | none => Except.error f.name
    | some t =>
      match collectHeaders fs with
      | Except.error n => Except.error n
      | Except.ok rest => Except.ok ((f.name, setOf t.cols) :: rest)

/-- Source `df[col] = pd.NA`: appends a column holding missing values. -/
def addColumn (t : Table) (c : String) : Table :=
  ⟨t.cols ++ [c], t.rows.map (fun r => r ++ [(c, (none : Cell))])⟩

/-- The padding loop `for col in all_headers: if col not in df.columns:
df[col] = pd.NA`, iterating the set in the order given by `cols`. -/
def padTable (cols : List String) (t : Table) : Table :=
  cols.foldl (fun acc c => if hasCol acc.cols c then acc else addColumn acc c) t

/-- Row-wise concatenation of the rows of several tables. -/
def rowsOf : List Table → List Row
  | [] => []
  | t :: ts => t.rows ++ rowsOf ts

/-- Source `pd.concat(dfs, ignore_index=True)`: columns are the union in
first-appearance order, rows are stacked; label alignment is provided by
`rowGet` on the kept per-row labels. -/
def concatTables (ts : List Table) : Table :=
  ⟨ts.foldl (fun acc t => t.cols.foldl insertNew acc) [], rowsOf ts⟩

/-- Projection of a row onto a column list by label lookup. -/
def reindexRow (cols : List String) (r : Row) : Row :=
  cols.map (fun c => (c, rowGet r c))

/-- Source `final_df.reindex(columns=list(all_headers))`: selects and
reorders columns by name, filling missing ones with missing values and
dropping columns not listed. -/
def reindexTable (cols : List String) (t : Table) : Table :=
  ⟨cols, t.rows.map (reindexRow cols)⟩

/-- One entry of the program's logging output. -/
inductive LogEvent where
  | errorNoCSVFiles
  | foundFiles (n : Nat)
  | errorReadingFile (name : String)
  | errorReadingHeaders (name : String)
  | warnHeaderMismatch
  | warnExtra (name : String) (extra : List String)
  | infoCommonOnly
  | infoRead (name : String)
  | errorMergeSkip (name : String)
  | errorNoValid
  | infoConsolidated (name : String)
  | errorOccurred
deriving DecidableEq, Repr

/-- Whether a log event is one of the warning-level schema diagnostics. -/
def isWarn : LogEvent → Bool
  | LogEvent.warnHeaderMismatch => true
  | LogEvent.warnExtra _ _ => true
  | _ => false

/-- Whether a log event mentions the given file name. -/
def mentionsFile (n : String) : LogEvent → Bool
  | LogEvent.errorReadingFile m => m == n
  | LogEvent.errorReadingHeaders m => m == n
  | LogEvent.warnExtra m _ => m == n
  | LogEvent.infoRead m => m == n
  | LogEvent.errorMergeSkip m => m == n
  | _ => false

/-- One invocation of `consolidate_csvs`: the discovered files in glob
order, the line standard input would supply to the prompt, the current
date for the fallback filename, and the optional explicit output name. -/
structure RunInput where
  files : List InputFile
  response : String
  now : PDate
  outputFilename : Option String
deriving DecidableEq, Repr

/-- How a run ends: early return with no files, the silent return of the
"No valid CSV files" branch, a propagated exception, or a written file. -/
inductive RunResult where
  | noFiles
  | noValid
  | aborted
  | wrote (name : String) (table : Table)
deriving DecidableEq, Repr

/-- Observable outcome of a run: log lines, whether the interactive prompt
was reached, and the final result. -/
structure RunOutcome where
  log : List LogEvent
  prompted : Bool
  result : RunResult
deriving DecidableEq, Repr

/-- Source `base_headers = headers_by_file[csv_files[0]]`: the header set
of the first discovered file. -/
def baseOf (byFile : List (String × List String)) : List String :=
  (byFile.head?.map Prod.snd).getD []

/-- Source `all_headers` as accumulated by `get_all_headers`: the union of
every file's header set, in first-insertion order. -/
def unionOf (byFile : List (String × List String)) : List String :=
  byFile.foldl (fun acc p => pyUnion acc p.2) []

/-- Set difference `headers - base_headers` (element order is the
insertion order of the left set). -/
def extrasOf (base hs : List String) : List String :=
  hs.filter (fun c => !hasCol base c)

/-- Source `new_headers = all_headers - base_headers`. -/
def newOf (byFile : List (String × List String)) : List String :=
  extrasOf (baseOf byFile) (unionOf byFile)

/-- The warning block of lines 140-144: the general warning followed by a
per-file line for every file having extra columns relative to base. -/
def warnLogOf (byFile : List (String × List String)) : List LogEvent :=
  LogEvent.warnHeaderMismatch ::
    byFile.filterMap (fun p =>
      let d := extrasOf (baseOf byFile) p.2
      if d.isEmpty then none else some (LogEvent.warnExtra p.1 d))

/-- The final authoritative header set of lines 139-149: the union when no
file adds headers or the (lowercased) response is the letter y, else the
base set only. -/
def schemaOf (resp : String) (byFile : List (String × List String)) : List String :=
  if (newOf byFile).isEmpty then unionOf byFile
  else if strToLower resp == "y" then unionOf byFile
  else baseOf byFile

/-- Log lines produced by the schema-mismatch block, if entered. -/
def promptLogOf (resp : String) (byFile : List (String × List String)) : List LogEvent :=
  if (newOf byFile).isEmpty then []
  else if strToLower resp == "y" then warnLogOf byFile
  else warnLogOf byFile ++ [LogEvent.infoCommonOnly]

/-- Whether the interactive prompt of line 146 runs. -/
def promptedOf (byFile : List (String × List String)) : Bool :=
  !(newOf byFile).isEmpty

/-- Log lines of the merge loop (lines 152-164), in file order. -/
def mergeLogs : List InputFile → List LogEvent
  | [] => []
  | f :: fs =>
    (match readCsv f with
     | none => [LogEvent.errorReadingFile f.name, LogEvent.errorMergeSkip f.name]
     | some _ => [LogEvent.infoRead f.name]) ++ mergeLogs fs

/-- The `dfs` list built by the merge loop: each readable file re-read and
padded with the missing authoritative columns (iterated in set order
`cols`); unreadable files are skipped. -/
def mergeFiles (cols : List String) : List InputFile → List Table
  | [] => []
  | f :: fs =>
    (match readCsv f with
     | none => []
     | some t => [padTable cols t]) ++ mergeFiles cols fs

/-- Appends the `.csv` extension unless already present (lines 179-180). -/
def withCsvExt (s : String) : String :=
  if strEndsWith s ".csv" then s else s ++ ".csv"

/-- Validity of a set-enumeration function: a real CPython run iterates
each set in some order that permutes its elements. -/
def EnumValid (e : List String → List String) : Prop :=
  ∀ l : List String, List.Perm (e l) l

/-- The insertion-order enumeration, one possible set iteration order. -/
def idEnum : List String → List String := fun l => l

/-- The reversed enumeration, another possible set iteration order. -/
def revEnum : List String → List String := fun l => l.reverse

/-- Source `consolidate_csvs`, parameterised by the set iteration order
`e` of this run.  Mirrors the source line by line: empty discovery returns
early; a failure while collecting headers aborts the whole run (the
re-raise of `get_all_headers` reaching the outer handler); otherwise the
schema is reconciled (prompting when new headers exist), every file is
re-read and padded, the frames are concatenated and reindexed to
`list(all_headers)`, the output name is the explicit one with `.csv`
appended or the derived date-range name, and the file is written. -/
def consolidate (e : List String → List String) (inp : RunInput) : RunOutcome :=
  match inp.files with
  | [] => ⟨[LogEvent.errorNoCSVFiles], false, RunResult.noFiles⟩
  | f0 :: rest =>
    match collectHeaders (f0 :: rest) with
    | Except.error badName =>
      ⟨[LogEvent.foundFiles (f0 :: rest).length, LogEvent.errorReadingFile badName,
        LogEvent.errorReadingHeaders badName, LogEvent.errorOccurred],
       false, RunResult.aborted⟩
    | Except.ok byFile =>
      let allH := schemaOf inp.response byFile
      let baseLog := LogEvent.foundFiles (f0 :: rest).length ::
        (promptLogOf inp.response byFile ++ mergeLogs (f0 :: rest))
      match mergeFiles (e allH) (f0 :: rest) with
      | [] => ⟨baseLog ++ [LogEvent.errorNoValid], promptedOf byFile, RunResult.noValid⟩
      | d :: ds =>
        let finalDf := reindexTable (e allH) (concatTables (d :: ds))
        match inp.outputFilename with
        | some s =>
          ⟨baseLog ++ [LogEvent.infoConsolidated (withCsvExt s)], promptedOf byFile,
           RunResult.wrote (withCsvExt s) finalDf⟩
        | none =>
          match generateDateRangeFilename inp.now (d :: ds) with
          | Except.error _ =>
            ⟨baseLog ++ [LogEvent.errorOccurred], promptedOf byFile, RunResult.aborted⟩
          | Except.ok nm =>
            ⟨baseLog ++ [LogEvent.infoConsolidated nm], promptedOf byFile,
             RunResult.wrote nm finalDf⟩

/-- The output name of a result, when one was written. -/
def resultName : RunResult → Option String
  | RunResult.wrote n _ => some n
  | _ => none

/-- The written table of a result, when one was written. -/
def resultTable : RunResult → Option Table
  | RunResult.wrote _ t => some t
  | _ => none

/-- The column order of the written table, when one was written. -/
def resultCols : RunResult → Option (List String)
  | RunResult.wrote _ t => some t.cols
  | _ => none

/-- Renders one cell as `to_csv` does: missing values become empty fields. -/
def cellStr : Cell → String
  | none => ""
  | some s => s

/-- Renders one data row of the output file. -/
def rowLine (cols : List String) (r : Row) : String :=
  joinWith "," (cols.map (fun c => cellStr (rowGet r c)))

/-- Source `final_df.to_csv(output_path, index=False)`: header line then
data lines. -/
def serializeTable (t : Table) : String :=
  joinWith "\n" (joinWith "," t.cols :: t.rows.map (rowLine t.cols)) ++ "\n"

/-- The serialized bytes written by a run, when a file was written. -/
def resultBytes : RunResult → Option String
  | RunResult.wrote _ t => some (serializeTable t)
  | _ => none

/-- The processed directory as a name-content association list. -/
abbrev Dir := List (String × String)

/-- Writing a file: `open(path, "w")` semantics replace any previous
content under the same name. -/
def dirWrite (d : Dir) (n content : String) : Dir :=
  d.filter (fun p => !(p.1 == n)) ++ [(n, content)]

/-- Reads a directory entry by name. -/
def dirGet (d : Dir) (n : String) : Option String :=
  (d.find? (fun p => p.1 == n)).map Prod.snd

/-- A whole run against a given prior state of the processed directory:
only a `wrote` result touches the directory. -/
def runDir (e : List String → List String) (inp : RunInput) (d : Dir) : Dir :=
  match (consolidate e inp).result with
  | RunResult.wrote n t => dirWrite d n (serializeTable t)
  | _ => d

/-- The per-row shape of a merged row: the final column list, each column
holding the source row's value when the source table has that column and a
missing value otherwise. -/
def specRow (cols tc : List String) (r : Row) : Row :=
  cols.map (fun c => (c, if hasCol tc c then rowGet r c else none))

/-- The rows of the written table, characterised file by file: every
readable file contributes its rows in order, projected onto the final
column list with null padding for columns the file lacked (and dropping
columns outside the final list). -/
def mergedRows (cols : List String) : List InputFile → List Row
  | [] => []
  | f :: fs =>
    (match readCsv f with
     | none => []
     | some t => t.rows.map (specRow cols t.cols)) ++ mergedRows cols fs

/-- Parses every string of a list as a date, failing if any fails (spec
wording: a column qualifies only when its values parse as dates). -/
def parseAllDates : List String → Option (List PDate)
  | [] => some []
  | s :: ss =>
    match parseIsoDate s, parseAllDates ss with
    | some d, some ds => some (d :: ds)
    | _, _ => none

/-- Stated from the spec's words for the Date-Range Namer: scan the
table's columns in order; for the first date-named column all of whose
present values parse as dates and which produces at least one value, take
the minimum as the representative date. -/
def specRepDateAux (t : Table) : List String → Option PDate
  | [] => none
  | c :: cs =>
    if isDateName c then
      match parseAllDates ((columnCells t c).filterMap id) with
      | some (d :: ds) => some (ds.foldl minKey d)
      | _ => specRepDateAux t cs
    else specRepDateAux t cs

/-- The representative date of a table, as the spec describes it. -/
def specRepDate (t : Table) : Option PDate := specRepDateAux t t.cols

/-- The derived output filename, as the spec describes it: global minimum
through global maximum of the representative dates, or the current date
when no table yields one. -/
def specFilename (now : PDate) (dfs : List Table) : String :=
  match dfs.filterMap specRepDate with
  | [] => "consolidated_" ++ fmtDate now ++ ".csv"
  | d :: ds =>
    "consolidated_" ++ fmtDate (ds.foldl minKey d) ++ "_thru_" ++
      fmtDate (ds.foldl maxKey d) ++ ".csv"

end CsvConsolidator

namespace CsvConsolidator

/-- Valid file with the three marker columns and one data row. -/
def fBase : InputFile :=
  ⟨"base.csv", ["ID,Timestamp,Transaction Type", "1,2024-01-01,buy"]⟩

/-- File whose lines never contain the header marker. -/
def fNoMarkerA : InputFile :=
  ⟨"a.csv", ["just some text", "1,2,3"]⟩

/-- Second file without the header marker. -/
def fNoMarkerB : InputFile :=
  ⟨"b.csv", ["other text"]⟩

/-- File with preamble, the marker header plus an extra column, and one
data row carrying the value v in the extra column. -/
def fExtra : InputFile :=
  ⟨"extra.csv",
   ["exported by tool", "ID,Timestamp,Transaction Type,Extra", "2,2024-03-01,sell,v"]⟩

/-- File missing the extra column but otherwise like the first: its
columns are a strict subset when fWide is discovered first. -/
def fNarrow : InputFile :=
  ⟨"narrow.csv", ["ID,Timestamp,Transaction Type", "3,2024-02-02,hold"]⟩

/-- File whose extra date column drives the date-range example: its
Timestamp values do not parse, its date column does. -/
def fWide : InputFile :=
  ⟨"wide.csv",
   ["ID,Timestamp,Transaction Type,date",
    "1,pending,buy,2024-01-05",
    "2,pending,sell,2024-01-10"]⟩

/-- File whose Timestamp column holds the 2024-02-01 value of the
date-range example. -/
def fFeb : InputFile :=
  ⟨"feb.csv", ["ID,Timestamp,Transaction Type", "3,2024-02-01,buy"]⟩

/-- File whose Timestamp cell is empty: pandas turns it into NaT. -/
def fNaT : InputFile :=
  ⟨"nat.csv", ["ID,Timestamp,Transaction Type", "1,,buy"]⟩

/-- The header set recorded for a readable file. -/
def headersOfFile (f : InputFile) : List String :=
  ((readCsv f).map (fun t => setOf t.cols)).getD []

/-- The headers-by-file dictionary a fully readable discovery produces. -/
def byFileOf (files : List InputFile) : List (String × List String) :=
  files.map (fun f => (f.name, headersOfFile f))

/-- Single valid file with an explicit output name. -/
def inpSingle : RunInput := ⟨[fBase], "n", ⟨2025, 1, 1⟩, some "out"⟩

/-- A valid file followed by a marker-less file. -/
def inpC2 : RunInput := ⟨[fBase, fNoMarkerB], "n", ⟨2025, 1, 1⟩, some "out"⟩

/-- Two marker-less files. -/
def inpC7 : RunInput := ⟨[fNoMarkerA, fNoMarkerB], "n", ⟨2025, 1, 1⟩, some "out"⟩

/-- Mismatching headers answered with the word yes. -/
def inpC6 : RunInput := ⟨[fBase, fExtra], "yes", ⟨2025, 1, 1⟩, some "out"⟩

/-- Mismatching headers answered with an uppercase Y. -/
def inpC6w : RunInput := ⟨[fBase, fExtra], "Y", ⟨2025, 1, 1⟩, some "out"⟩

/-- Mismatching headers answered with n: extras are discarded. -/
def inpC8 : RunInput := ⟨[fBase, fExtra], "n", ⟨2025, 1, 1⟩, some "out"⟩

/-- The date-range example of the spec, without an explicit output name. -/
def inpC5 : RunInput := ⟨[fWide, fFeb], "n", ⟨2025, 1, 1⟩, none⟩

/-- A file whose Timestamp cell is empty, without an explicit output name. -/
def inpC5x : RunInput := ⟨[fNaT], "n", ⟨2025, 6, 15⟩, none⟩

/-- Subset columns: the second file lacks the date column of the first. -/
def inpC9 : RunInput := ⟨[fWide, fNarrow], "n", ⟨2025, 1, 1⟩, some "out"⟩

/-- Identical column sets in both files. -/
def inpC1w : RunInput := ⟨[fBase, fNarrow], "n", ⟨2025, 1, 1⟩, some "out"⟩

/-- The padded per-file tables of the date-range example run. -/
def dfsC5 : List Table :=
  mergeFiles ["ID", "Timestamp", "Transaction Type", "date"] [fWide, fFeb]

/-- The table written by the single-file run. -/
def tC10 : Table := (resultTable (consolidate idEnum inpSingle).result).getD ⟨[], []⟩

/-- A processed directory that already holds a file named out.csv. -/
def dC10 : Dir := [("out.csv", "OLD")]

theorem hasCol_iff {l : List String} {c : String} : hasCol l c = true ↔ c ∈ l := by
  simp only [hasCol, List.any_eq_true, beq_iff_eq]
  constructor
  · rintro ⟨x, hx, rfl⟩; exact hx
  · intro h; exact ⟨c, h, rfl⟩

theorem hasCol_cons {x c : String} {xs : List String} :
    hasCol (x :: xs) c = (x == c || hasCol xs c) := by
  simp [hasCol]

theorem mem_insertNew {acc : List String} {c x : String} :
    x ∈ insertNew acc c ↔ x ∈ acc ∨ x = c := by
  unfold insertNew
  split
  · rename_i h
    constructor
    · exact Or.inl
    · rintro (hx | rfl)
      · exact hx
      · exact hasCol_iff.mp h
  · simp [List.mem_append]

theorem mem_foldl_insertNew (l acc : List String) (x : String) :
    x ∈ l.foldl insertNew acc ↔ x ∈ acc ∨ x ∈ l := by
  induction l generalizing acc with
  | nil => simp
  | cons c cs ih =>
    rw [List.foldl_cons, ih, mem_insertNew]
    simp only [List.mem_cons]
    tauto

theorem nodup_insertNew {acc : List String} {c : String} (h : acc.Nodup) :
    (insertNew acc c).Nodup := by
  unfold insertNew
  split
  · exact h
  · rename_i hc
    rw [List.nodup_append]
    refine ⟨h, List.nodup_singleton c, ?_⟩
    intro a ha hac
    rw [List.mem_singleton] at hac
    subst hac
    exact hc (hasCol_iff.mpr ha)

theorem nodup_foldl_insertNew (l : List String) {acc : List String} (h : acc.Nodup) :
    (l.foldl insertNew acc).Nodup := by
  induction l generalizing acc with
  | nil => exact h
  | cons c cs ih => exact ih (nodup_insertNew h)

theorem mem_setOf {l : List String} {x : String} : x ∈ setOf l ↔ x ∈ l := by
  unfold setOf
  rw [mem_foldl_insertNew]
  simp

theorem nodup_setOf (l : List String) : (setOf l).Nodup :=
  nodup_foldl_insertNew l List.nodup_nil

theorem mem_pyUnion {a b : List String} {x : String} :
    x ∈ pyUnion a b ↔ x ∈ a ∨ x ∈ b := by
  unfold pyUnion
  exact mem_foldl_insertNew b a x

theorem mem_unionOf_aux (byFile : List (String × List String))
    (acc : List String) (x : String) :
    x ∈ byFile.foldl (fun acc p => pyUnion acc p.2) acc ↔
      x ∈ acc ∨ ∃ p ∈ byFile, x ∈ p.2 := by
  induction byFile generalizing acc with
  | nil => simp
  | cons q qs ih =>
    rw [List.foldl_cons, ih, mem_pyUnion]
    constructor
    · rintro ((hx | hx) | ⟨p, hp, hx⟩)
      · exact Or.inl hx
      · exact Or.inr ⟨q, List.mem_cons_self q qs, hx⟩
      · exact Or.inr ⟨p, List.mem_cons_of_mem q hp, hx⟩
    · rintro (hx | ⟨p, hp, hx⟩)
      · exact Or.inl (Or.inl hx)
      · rcases List.mem_cons.mp hp with rfl | hp
        · exact Or.inl (Or.inr hx)
        · exact Or.inr ⟨p, hp, hx⟩

theorem mem_unionOf {byFile : List (String × List String)} {x : String} :
    x ∈ unionOf byFile ↔ ∃ p ∈ byFile, x ∈ p.2 := by
  unfold unionOf
  rw [mem_unionOf_aux]
  simp

theorem nodup_unionOf (byFile : List (String × List String)) : (unionOf byFile).Nodup := by
  unfold unionOf
  have : ∀ (l : List (String × List String)) (acc : List String), acc.Nodup →
      (l.foldl (fun acc p => pyUnion acc p.2) acc).Nodup := by
    intro l
    induction l with
    | nil => intro acc h; exact h
    | cons q qs ih =>
      intro acc h
      exact ih _ (nodup_foldl_insertNew _ h)
  exact this byFile [] List.nodup_nil

theorem rowGet_append_left {a b : Row} {c : String} (h : c ∈ a.map Prod.fst) :
    rowGet (a ++ b) c = rowGet a c := by
  induction a with
  | nil => simp at h
  | cons p ps ih =>
    rw [List.cons_append]
    by_cases hpc : (p.1 == c) = true
    · simp [rowGet, hpc]
    · have hc : c ∈ ps.map Prod.fst := by
        rcases List.mem_cons.mp h with hc | hc
        · exact absurd (by simp [hc.symm]) hpc
        · exact hc
      simp [rowGet, hpc, ih hc]

theorem rowGet_append_right {a b : Row} {c : String} (h : ¬ c ∈ a.map Prod.fst) :
    rowGet (a ++ b) c = rowGet b c := by
  induction a with
  | nil => simp
  | cons p ps ih =>
    rw [List.cons_append]
    by_cases hpc : (p.1 == c) = true
    · exact absurd (by simp [eq_of_beq hpc]) h
    · have hc : ¬ c ∈ ps.map Prod.fst := fun hm => h (List.mem_cons_of_mem _ hm)
      simp [rowGet, hpc, ih hc]

theorem rowGet_nones {zs : List String} {c : String} :
    rowGet (zs.map (fun z => (z, (none : Cell)))) c = none := by
  induction zs with
  | nil => rfl
  | cons z zr ih =>
    simp only [List.map_cons, rowGet]
    split <;> simp [ih]

theorem rowGet_mapPairs {C : List String} {G : String → Cell} {c : String} :
    rowGet (C.map (fun x => (x, G x))) c = if hasCol C c then G c else none := by
  induction C with
  | nil => simp [rowGet, hasCol]
  | cons x xs ih =>
    simp only [List.map_cons, rowGet]
    by_cases hxc : (x == c) = true
    · have hx : x = c := eq_of_beq hxc
      subst hx
      simp [hasCol_cons]
    · simp [hxc, ih, hasCol_cons]

theorem parseRow_keys {cols : List String} {line : String} {r : Row}
    (h : parseRow cols line = some r) : r.map Prod.fst = cols := by
  unfold parseRow at h
  by_cases hl : cols.length < (splitCells line).length
  · simp [hl] at h
  · simp only [hl, if_false, Option.some.injEq] at h
    subst h
    rw [List.map_map]
    have hlen : cols.length ≤
        ((splitCells line) ++ List.replicate (cols.length - (splitCells line).length) "").length := by
      rw [List.length_append, List.length_replicate]
      omega
    have hcomp : (Prod.fst ∘ fun p : String × String => (p.1, mkCell p.2)) = Prod.fst := rfl
    rw [hcomp, List.map_fst_zip _ _ hlen]

theorem parseRows_keys {cols : List String} {L : List String} {rs : List Row}
    (h : parseRows cols L = some rs) : ∀ r ∈ rs, r.map Prod.fst = cols := by
  induction L generalizing rs with
  | nil =>
    unfold parseRows at h
    cases h
    intro r hr
    simp at hr
  | cons l ls ih =>
    unfold parseRows at h
    cases hr1 : parseRow cols l with
    | none => rw [hr1] at h; cases h
    | some r1 =>
      cases hr2 : parseRows cols ls with
      | none => rw [hr1, hr2] at h; cases h
      | some rs2 =>
        rw [hr1, hr2] at h
        cases h
        intro r hr
        rcases List.mem_cons.mp hr with rfl | hr
        · exact parseRow_keys hr1
        · exact ih hr2 r hr

theorem readCsv_wf {f : InputFile} {t : Table} (h : readCsv f = some t) :
    ∀ r ∈ t.rows, r.map Prod.fst = t.cols := by
  unfold readCsv at h
  cases hl : linesFromHeader f.lines with
  | none => rw [hl] at h; cases h
  | some ls =>
    rw [hl] at h
    replace h : parseCsvFrom ls = some t := h
    cases ls with
    | nil => cases h
    | cons hd body =>
      replace h : (parseRows (splitCells hd) (body.filter (fun l => l != ""))).map
          (fun rs => Table.mk (splitCells hd) rs) = some t := h
      cases hp : parseRows (splitCells hd) (body.filter (fun l => l != "")) with
      | none => rw [hp] at h; cases h
      | some rs =>
        rw [hp] at h
        simp only [Option.map_some'] at h
        cases h
        exact parseRows_keys hp

theorem rowsOf_append (a b : List Table) : rowsOf (a ++ b) = rowsOf a ++ rowsOf b := by
  induction a with
  | nil => rfl
  | cons t ts ih => simp [rowsOf, ih]

theorem padTable_cons (c : String) (cs : List String) (t : Table) :
    padTable (c :: cs) t = padTable cs (if hasCol t.cols c then t else addColumn t c) := rfl

theorem padTable_shape (C : List String) (t : Table) :
    ∃ zs : List String, (∀ z ∈ zs, ¬ z ∈ t.cols) ∧
      (padTable C t).cols = t.cols ++ zs ∧
      (padTable C t).rows = t.rows.map (fun r => r ++ zs.map (fun z => (z, (none : Cell)))) := by
  induction C generalizing t with
  | nil =>
    refine ⟨[], by simp, by simp [padTable], ?_⟩
    have : padTable [] t = t := rfl
    rw [this]
    simp
  | cons c cs ih =>
    rw [padTable_cons]
    by_cases hc : hasCol t.cols c = true
    · rw [if_pos hc]
      exact ih t
    · rw [if_neg (by simp [hc])]
      obtain ⟨zs, hz, hcols, hrows⟩ := ih (addColumn t c)
      refine ⟨c :: zs, ?_, ?_, ?_⟩
      · intro z hzm
        rcases List.mem_cons.mp hzm with rfl | hzm
        · exact fun hm => hc (hasCol_iff.mpr hm)
        · intro hm
          exact hz z hzm (by simp [addColumn, hm])
      · rw [hcols]
        simp [addColumn]
      · rw [hrows]
        simp only [addColumn, List.map_map]
        apply List.map_congr_left
        intro r _
        simp

theorem rows_char (C : List String) (files : List InputFile) :
    (rowsOf (mergeFiles C files)).map (reindexRow C) = mergedRows C files := by
  induction files with
  | nil => simp [mergeFiles, rowsOf, mergedRows]
  | cons f fs ih =>
    cases hf : readCsv f with
    | none =>
      unfold mergeFiles mergedRows
      rw [hf]
      simpa using ih
    | some t =>
      unfold mergeFiles mergedRows
      rw [hf]
      simp only [List.singleton_append]
      have hcons : rowsOf (padTable C t :: mergeFiles C fs) =
          (padTable C t).rows ++ rowsOf (mergeFiles C fs) := rfl
      rw [hcons, List.map_append, ih]
      congr 1
      obtain ⟨zs, hz, _, hrows⟩ := padTable_shape C t
      rw [hrows, List.map_map]
      apply List.map_congr_left
      intro r hr
      have hkeys : r.map Prod.fst = t.cols := readCsv_wf hf r hr
      unfold Function.comp reindexRow specRow
      apply List.map_congr_left
      intro c _
      by_cases hct : hasCol t.cols c = true
      · rw [if_pos hct, rowGet_append_left]
        rw [hkeys]
        exact hasCol_iff.mp hct
      · rw [if_neg (by simp [hct]), rowGet_append_right, rowGet_nones]
        rw [hkeys]
        intro hm
        exact hct (hasCol_iff.mpr hm)

theorem collectHeaders_cons (f : InputFile) (fs : List InputFile) :
    collectHeaders (f :: fs) =
      match readCsv f with
      | none => Except.error f.name
      | some t =>
        match collectHeaders fs with
        | Except.error n => Except.error n
        | Except.ok rest => Except.ok ((f.name, setOf t.cols) :: rest) := rfl

theorem mergeFiles_cons (C : List String) (f : InputFile) (fs : List InputFile) :
    mergeFiles C (f :: fs) =
      (match readCsv f with
       | none => []
       | some t => [padTable C t]) ++ mergeFiles C fs := rfl

theorem mergeLogs_cons (f : InputFile) (fs : List InputFile) :
    mergeLogs (f :: fs) =
      (match readCsv f with
       | none => [LogEvent.errorReadingFile f.name, LogEvent.errorMergeSkip f.name]
       | some _ => [LogEvent.infoRead f.name]) ++ mergeLogs fs := rfl

theorem collectHeaders_of_parse {files : List InputFile}
    (h : ∀ f ∈ files, (readCsv f).isSome = true) :
    collectHeaders files =
      Except.ok (files.map (fun f => (f.name, headersOfFile f))) := by
  induction files with
  | nil => rfl
  | cons f fs ih =>
    obtain ⟨t, ht⟩ := Option.isSome_iff_exists.mp (h f (List.mem_cons_self f fs))
    have hrest := ih (fun g hg => h g (List.mem_cons_of_mem _ hg))
    simp only [collectHeaders_cons, ht, hrest, List.map_cons]
    have : headersOfFile f = setOf t.cols := by simp [headersOfFile, ht]
    rw [this]

theorem collectHeaders_error_of_bad {files : List InputFile} {f : InputFile}
    (hm : f ∈ files) (hb : readCsv f = none) :
    ∃ nm, collectHeaders files = Except.error nm := by
  induction files with
  | nil => cases hm
  | cons g gs ih =>
    rcases List.mem_cons.mp hm with rfl | hm2
    · exact ⟨f.name, by simp [collectHeaders_cons, hb]⟩
    · cases hg : readCsv g with
      | none => exact ⟨g.name, by simp [collectHeaders_cons, hg]⟩
      | some t =>
        obtain ⟨nm, hnm⟩ := ih hm2
        refine ⟨nm, ?_⟩
        simp [collectHeaders_cons, hg, hnm]

theorem collectHeaders_ok_cons {f : InputFile} {fs : List InputFile}
    {byFile : List (String × List String)}
    (h : collectHeaders (f :: fs) = Except.ok byFile) :
    ∃ t rest, readCsv f = some t ∧ collectHeaders fs = Except.ok rest ∧
      byFile = (f.name, setOf t.cols) :: rest := by
  cases ht : readCsv f with
  | none => simp [collectHeaders_cons, ht] at h
  | some t =>
    cases hr : collectHeaders fs with
    | error n => simp [collectHeaders_cons, ht, hr] at h
    | ok rest =>
      simp only [collectHeaders_cons, ht, hr, Except.ok.injEq] at h
      exact ⟨t, rest, rfl, rfl, h.symm⟩

theorem collectHeaders_ok_mem {files : List InputFile}
    {byFile : List (String × List String)}
    (h : collectHeaders files = Except.ok byFile) :
    ∀ p ∈ byFile, ∃ f ∈ files, ∃ t, readCsv f = some t ∧ p = (f.name, setOf t.cols) := by
  induction files generalizing byFile with
  | nil =>
    replace h : (Except.ok [] : Except String (List (String × List String))) =
        Except.ok byFile := h
    cases h
    intro p hp
    cases hp
  | cons f fs ih =>
    cases ht : readCsv f with
    | none => simp [collectHeaders_cons, ht] at h
    | some t =>
      cases hr : collectHeaders fs with
      | error n => simp [collectHeaders_cons, ht, hr] at h
      | ok rest =>
        simp only [collectHeaders_cons, ht, hr, Except.ok.injEq] at h
        subst h
        intro p hp
        rcases List.mem_cons.mp hp with rfl | hp2
        · exact ⟨f, List.mem_cons_self f fs, t, ht, rfl⟩
        · obtain ⟨g, hg, t2, ht2, hp3⟩ := ih hr p hp2
          exact ⟨g, List.mem_cons_of_mem _ hg, t2, ht2, hp3⟩

theorem consolidate_error_char (e : List String → List String) (inp : RunInput)
    (f0 : InputFile) (rest : List InputFile) (badName : String)
    (hf : inp.files = f0 :: rest)
    (hc : collectHeaders (f0 :: rest) = Except.error badName) :
    consolidate e inp =
      ⟨[LogEvent.foundFiles (f0 :: rest).length, LogEvent.errorReadingFile badName,
        LogEvent.errorReadingHeaders badName, LogEvent.errorOccurred],
       false, RunResult.aborted⟩ := by
  obtain ⟨files, resp, now, outn⟩ := inp
  simp only at hf
  subst hf
  simp only [consolidate, hc]

theorem consolidate_ok_explicit (e : List String → List String) (inp : RunInput)
    (f0 : InputFile) (rest : List InputFile) (byFile : List (String × List String))
    (s : String) (t0 : Table)
    (hf : inp.files = f0 :: rest)
    (h0 : readCsv f0 = some t0)
    (hc : collectHeaders (f0 :: rest) = Except.ok byFile)
    (hs : inp.outputFilename = some s) :
    consolidate e inp =
      ⟨(LogEvent.foundFiles (f0 :: rest).length ::
          (promptLogOf inp.response byFile ++ mergeLogs (f0 :: rest))) ++
          [LogEvent.infoConsolidated (withCsvExt s)],
       promptedOf byFile,
       RunResult.wrote (withCsvExt s)
         (reindexTable (e (schemaOf inp.response byFile))
           (concatTables (mergeFiles (e (schemaOf inp.response byFile)) (f0 :: rest))))⟩ := by
  obtain ⟨files, resp, now, outn⟩ := inp
  simp only at hf hs
  subst hf
  subst hs
  have hm : mergeFiles (e (schemaOf resp byFile)) (f0 :: rest) =
      padTable (e (schemaOf resp byFile)) t0 ::
        mergeFiles (e (schemaOf resp byFile)) rest := by
    rw [mergeFiles_cons, h0]
    rfl
  simp only [consolidate, hc, hm]

theorem reindex_keys (C : List String) (t : Table) :
    ∀ r ∈ (reindexTable C t).rows, r.map Prod.fst = (reindexTable C t).cols := by
  intro r hr
  simp only [reindexTable] at hr ⊢
  obtain ⟨r0, _, rfl⟩ := List.mem_map.mp hr
  rw [reindexRow, List.map_map]
  have hcomp : (Prod.fst ∘ fun c => (c, rowGet r0 c)) = id := rfl
  rw [hcomp, List.map_id]

theorem wrote_shape (e : List String → List String) (inp : RunInput)
    (n : String) (tbl : Table)
    (h : (consolidate e inp).result = RunResult.wrote n tbl) :
    ∃ C t, tbl = reindexTable C t := by
  obtain ⟨files, resp, now, outn⟩ := inp
  cases files with
  | nil => simp [consolidate] at h
  | cons f0 rest =>
    cases hc : collectHeaders (f0 :: rest) with
    | error bn => simp [consolidate, hc] at h
    | ok byFile =>
      simp only [consolidate, hc] at h
      cases hm : mergeFiles (e (schemaOf resp byFile)) (f0 :: rest) with
      | nil => rw [hm] at h; simp at h
      | cons d ds =>
        rw [hm] at h
        cases outn with
        | some s =>
          simp only [RunResult.wrote.injEq] at h
          exact ⟨_, _, h.2.symm⟩
        | none =>
          cases hg : generateDateRangeFilename now (d :: ds) with
          | error u => simp [hg] at h
          | ok nm =>
            simp only [hg, RunResult.wrote.injEq] at h
            exact ⟨_, _, h.2.symm⟩

theorem dirGet_dirWrite_self (d : Dir) (n c : String) :
    dirGet (dirWrite d n c) n = some c := by
  unfold dirGet dirWrite
  induction d with
  | nil => simp [List.find?]
  | cons p ps ih =>
    by_cases hp : (p.1 == n) = true
    · simp [List.filter_cons, hp]
    · simp [List.filter_cons, hp, List.find?_cons]

theorem dirGet_dirWrite_other (d : Dir) (n c m : String) (hm : m ≠ n) :
    dirGet (dirWrite d n c) m = dirGet d m := by
  unfold dirGet dirWrite
  induction d with
  | nil =>
    have hnm : (n == m) = false := by
      simp only [beq_eq_false_iff_ne, ne_eq]
      exact fun hc => hm hc.symm
    simp [List.find?, hnm]
  | cons p ps ih =>
    by_cases hp : (p.1 == n) = true
    · have hpm : (p.1 == m) = false := by
        have : p.1 = n := eq_of_beq hp
        subst this
        simpa using fun hc => hm hc.symm
      simpa [List.filter_cons, hp, List.find?_cons, hpm] using ih
    · by_cases hpm : (p.1 == m) = true
      · simp [List.filter_cons, hp, List.find?_cons, hpm]
      · simpa [List.filter_cons, hp, List.find?_cons, hpm] using ih

end CsvConsolidator

namespace CsvConsolidator

/-- C3: for every run that writes an output file, every row of the written
table carries exactly the final authoritative column list, in the same
order, so each row has a cell (possibly null) for every final column. -/
theorem C3_rows_uniform (e : List String → List String) (inp : RunInput)
    (n : String) (tbl : Table)
    (h : (consolidate e inp).result = RunResult.wrote n tbl) :
    ∀ r ∈ tbl.rows, r.map Prod.fst = tbl.cols := by
  obtain ⟨C, t, rfl⟩ := wrote_shape e inp n tbl h
  exact reindex_keys C t

/-- C3 witness: the single-file run writes a table whose rows all carry the
final column list. -/
theorem C3_rows_uniform_witness :
    (consolidate idEnum inpSingle).result = RunResult.wrote "out.csv" tC10 ∧
    ∀ r ∈ tC10.rows, r.map Prod.fst = tC10.cols :=
  ⟨by decide, C3_rows_uniform idEnum inpSingle "out.csv" tC10 (by decide)⟩

/-- C10: any run that reaches the write step replaces whatever the
processed directory held under the chosen output name with the new table's
serialization, leaving every other entry unchanged; no error and no
prompt arise from the overwrite, since the pipeline never consults the
directory. -/
theorem C10_overwrite (e : List String → List String) (inp : RunInput)
    (d : Dir) (n : String) (tbl : Table)
    (h : (consolidate e inp).result = RunResult.wrote n tbl) :
    dirGet (runDir e inp d) n = some (serializeTable tbl) ∧
    ∀ m, m ≠ n → dirGet (runDir e inp d) m = dirGet d m := by
  unfold runDir
  rw [h]
  exact ⟨dirGet_dirWrite_self d n _, fun m hm => dirGet_dirWrite_other d n _ m hm⟩

/-- C10 witness: with out.csv already present, the run silently replaces
its content. -/
theorem C10_overwrite_witness :
    dirGet dC10 "out.csv" = some "OLD" ∧
    dirGet (runDir idEnum inpSingle dC10) "out.csv" = some (serializeTable tC10) :=
  ⟨by decide, (C10_overwrite idEnum inpSingle dC10 "out.csv" tC10 (by decide)).1⟩

/-- C1 counterexample: with the common three-column set, the run does not
prompt, but under the reversed (valid) set-iteration order the written
column order is the reverse of the first file's column order, so the claim
that output order always equals the first file's order fails. -/
theorem C1_counterexample :
    EnumValid revEnum ∧
    (consolidate revEnum inpSingle).prompted = false ∧
    (readCsv fBase).map Table.cols = some ["ID", "Timestamp", "Transaction Type"] ∧
    resultCols (consolidate revEnum inpSingle).result =
      some ["Transaction Type", "Timestamp", "ID"] ∧
    some ["Transaction Type", "Timestamp", "ID"] ≠
      (some ["ID", "Timestamp", "Transaction Type"] : Option (List String)) :=
  ⟨fun l => l.reverse_perm, by decide, by decide, by decide, by decide⟩

/-- C4 counterexample: two runs on the same single-file input with the same
explicit output name, differing only in the (both valid) set-iteration
order, write different bytes, so outputs are not byte-identical. -/
theorem C4_counterexample :
    EnumValid idEnum ∧ EnumValid revEnum ∧
    resultName (consolidate idEnum inpSingle).result =
      resultName (consolidate revEnum inpSingle).result ∧
    resultBytes (consolidate idEnum inpSingle).result ≠
      resultBytes (consolidate revEnum inpSingle).result :=
  ⟨fun l => List.Perm.refl l, fun l => l.reverse_perm, by decide, by decide⟩

/-- C2 counterexample: one valid file and one marker-less file; the run
aborts during header collection with no output written, instead of merging
the valid file as the claim states. -/
theorem C2_counterexample :
    (linesFromHeader fBase.lines).isSome = true ∧
    linesFromHeader fNoMarkerB.lines = none ∧
    (consolidate idEnum inpC2).result = RunResult.aborted :=
  ⟨by decide, by decide, by decide⟩

/-- C7 counterexample: with two marker-less files the run does abort with
no output, but only the first file's failure is logged; no log line
mentions the second file, contradicting the claim that the per-file
failures are logged. -/
theorem C7_counterexample :
    linesFromHeader fNoMarkerA.lines = none ∧
    linesFromHeader fNoMarkerB.lines = none ∧
    (consolidate idEnum inpC7).result = RunResult.aborted ∧
    (consolidate idEnum inpC7).log.any (mentionsFile "a.csv") = true ∧
    (consolidate idEnum inpC7).log.any (mentionsFile "b.csv") = false :=
  ⟨by decide, by decide, by decide, by decide, by decide⟩

/-- C6 counterexample: a file adds an Extra column and the prompt is
answered with the word yes; the code compares the lowercased answer with
the single letter y, treats yes as non-affirmative, and proceeds with the
base schema, although the claim says an affirmative answer selects the
union. -/
theorem C6_counterexample :
    inpC6.response = "yes" ∧
    (consolidate idEnum inpC6).prompted = true ∧
    (readCsv fExtra).map (fun t => hasCol t.cols "Extra") = some true ∧
    resultCols (consolidate idEnum inpC6).result =
      some ["ID", "Timestamp", "Transaction Type"] :=
  ⟨rfl, by decide, by decide, by decide⟩

/-- C8 counterexample: the extra column's value v is present in a file that
is successfully merged (its read is logged as successful and its rows are
in the output), yet after the extras are declined the value appears
nowhere in the written table: the cell was dropped, not carried over. -/
theorem C8_counterexample :
    (readCsv fExtra).map
        (fun t => t.rows.any (fun r => r.any (fun p => p.2 == some "v"))) = some true ∧
    (consolidate idEnum inpC8).log.any
        (fun ev => ev == LogEvent.infoRead "extra.csv") = true ∧
    (resultTable (consolidate idEnum inpC8).result).map
        (fun t => t.rows.any (fun r => r.any (fun p => p.2 == some "v"))) = some false :=
  ⟨by decide, by decide, by decide⟩

/-- C2 amended: whenever any discovered file is unreadable (in particular
when it lacks the header marker), the whole run aborts during the header
collection pass with no output written, even if other files are valid; the
per-file skip logic of the merge loop is never reached by such a file. -/
theorem C2_amended (e : List String → List String) (inp : RunInput)
    (hne : inp.files ≠ [])
    (hbad : ∃ f ∈ inp.files, readCsv f = none) :
    (consolidate e inp).result = RunResult.aborted ∧
    ∀ n tbl, (consolidate e inp).result ≠ RunResult.wrote n tbl := by
  obtain ⟨f, hfm, hb⟩ := hbad
  cases hfl : inp.files with
  | nil => exact absurd hfl hne
  | cons f0 rest =>
    rw [hfl] at hfm
    obtain ⟨nm, hc⟩ := collectHeaders_error_of_bad hfm hb
    rw [consolidate_error_char e inp f0 rest nm hfl hc]
    exact ⟨rfl, fun n tbl h => by cases h⟩

/-- C2 amended witness: a valid file plus a marker-less file abort the
run. -/
theorem C2_amended_witness :
    inpC2.files ≠ [] ∧ (∃ f ∈ inpC2.files, readCsv f = none) ∧
    (consolidate idEnum inpC2).result = RunResult.aborted :=
  ⟨by decide, ⟨fNoMarkerB, by decide, by decide⟩,
   (C2_amended idEnum inpC2 (by decide) ⟨fNoMarkerB, by decide, by decide⟩).1⟩

/-- C7 amended: when every discovered file is unreadable, the run aborts
during header collection after logging only the first file's failure (one
read error and one header error for that file, then the generic error
line); the remaining files' failures are never logged, and no output is
written. -/
theorem C7_amended (e : List String → List String) (inp : RunInput)
    (f0 : InputFile) (rest : List InputFile)
    (hf : inp.files = f0 :: rest)
    (hall : ∀ f ∈ inp.files, readCsv f = none) :
    consolidate e inp =
      ⟨[LogEvent.foundFiles (f0 :: rest).length, LogEvent.errorReadingFile f0.name,
        LogEvent.errorReadingHeaders f0.name, LogEvent.errorOccurred],
       false, RunResult.aborted⟩ := by
  have h0 : readCsv f0 = none := hall f0 (by rw [hf]; exact List.mem_cons_self f0 rest)
  have hc : collectHeaders (f0 :: rest) = Except.error f0.name := by
    simp [collectHeaders_cons, h0]
  exact consolidate_error_char e inp f0 rest f0.name hf hc

/-- C7 amended witness: two marker-less files; the log names only the
first. -/
theorem C7_amended_witness :
    (∀ f ∈ inpC7.files, readCsv f = none) ∧
    consolidate idEnum inpC7 =
      ⟨[LogEvent.foundFiles 2, LogEvent.errorReadingFile "a.csv",
        LogEvent.errorReadingHeaders "a.csv", LogEvent.errorOccurred],
       false, RunResult.aborted⟩ :=
  ⟨by decide, C7_amended idEnum inpC7 fNoMarkerA [fNoMarkerB] rfl (by decide)⟩

theorem hasCol_eq_false {l : List String} {c : String} (h : ¬ c ∈ l) :
    hasCol l c = false := by
  cases hc : hasCol l c
  · rfl
  · exact absurd (hasCol_iff.mp hc) h

theorem hasCol_ext {l l' : List String} (h : ∀ x, x ∈ l ↔ x ∈ l') (c : String) :
    hasCol l c = hasCol l' c := by
  by_cases hm : c ∈ l
  · rw [hasCol_iff.mpr hm, hasCol_iff.mpr ((h c).mp hm)]
  · rw [hasCol_eq_false hm, hasCol_eq_false (fun m => hm ((h c).mpr m))]

theorem nodup_headersOfFile (f : InputFile) : (headersOfFile f).Nodup := by
  unfold headersOfFile
  cases h : readCsv f
  · simp
  · simp [nodup_setOf]

theorem mergeLogs_not_warn (files : List InputFile) :
    ∀ ev ∈ mergeLogs files, isWarn ev = false := by
  induction files with
  | nil => intro ev h; cases h
  | cons f fs ih =>
    intro ev hev
    rw [mergeLogs_cons] at hev
    rcases List.mem_append.mp hev with h1 | h2
    · cases hr : readCsv f <;> rw [hr] at h1 <;> simp at h1
      · rcases h1 with rfl | rfl <;> rfl
      · rw [h1]; rfl
    · exact ih ev h2

theorem rowGet_specRow {C tc : List String} {r : Row} {c : String} :
    rowGet (specRow C tc r) c =
      if hasCol C c then (if hasCol tc c then rowGet r c else none) else none := by
  unfold specRow
  exact rowGet_mapPairs

theorem mergedRows_length (C C' : List String) (files : List InputFile) :
    (mergedRows C files).length = (mergedRows C' files).length := by
  induction files with
  | nil => rfl
  | cons f fs ih =>
    cases hr : readCsv f
    · simpa [mergedRows, hr] using ih
    · simp [mergedRows, hr, List.length_append, ih]

theorem mergedRows_rowGet (C C' : List String) (files : List InputFile)
    (hcc : ∀ x, hasCol C x = hasCol C' x) (c : String) :
    (mergedRows C files).map (fun r => rowGet r c) =
      (mergedRows C' files).map (fun r => rowGet r c) := by
  induction files with
  | nil => rfl
  | cons f fs ih =>
    cases hr : readCsv f
    · simpa [mergedRows, hr] using ih
    · simp only [mergedRows, hr, List.map_append, List.map_map]
      rw [ih]
      congr 1
      apply List.map_congr_left
      intro r _
      show rowGet (specRow C _ r) c = rowGet (specRow C' _ r) c
      rw [rowGet_specRow, rowGet_specRow, hcc c]

theorem newOf_eq_nil {f0 : InputFile} {rest : List InputFile}
    (hsub : ∀ f ∈ f0 :: rest, ∀ c ∈ headersOfFile f, c ∈ headersOfFile f0) :
    newOf ((f0 :: rest).map (fun f => (f.name, headersOfFile f))) = [] := by
  unfold newOf extrasOf
  rw [List.filter_eq_nil_iff]
  intro c hc
  obtain ⟨p, hp, hcp⟩ := mem_unionOf.mp hc
  obtain ⟨f, hfm, rfl⟩ := List.mem_map.mp hp
  have hc0 : c ∈ headersOfFile f0 := hsub f hfm c hcp
  have hbase : baseOf ((f0 :: rest).map (fun f => (f.name, headersOfFile f))) =
      headersOfFile f0 := by simp [baseOf]
  rw [hbase]
  simp [hasCol_iff.mpr hc0]

theorem mem_unionOf_headers {f0 : InputFile} {rest : List InputFile} {c : String} :
    c ∈ unionOf ((f0 :: rest).map (fun f => (f.name, headersOfFile f))) ↔
      ∃ f ∈ f0 :: rest, c ∈ headersOfFile f := by
  rw [mem_unionOf]
  constructor
  · rintro ⟨p, hp, hcp⟩
    obtain ⟨f, hfm, rfl⟩ := List.mem_map.mp hp
    exact ⟨f, hfm, hcp⟩
  · rintro ⟨f, hfm, hcf⟩
    exact ⟨(f.name, headersOfFile f), List.mem_map.mpr ⟨f, hfm, rfl⟩, hcf⟩

/-- C9: when every file's column set is contained in the first file's, the
run emits no warning and never prompts; with an explicit output name it
writes a table whose rows are exactly the source rows projected onto the
final column list, with null cells for the columns a file lacked. -/
theorem C9_subset_silent (e : List String → List String) (inp : RunInput)
    (f0 : InputFile) (rest : List InputFile) (s : String)
    (hf : inp.files = f0 :: rest)
    (hall : ∀ f ∈ inp.files, (readCsv f).isSome = true)
    (hsub : ∀ f ∈ inp.files, ∀ c ∈ headersOfFile f, c ∈ headersOfFile f0)
    (hs : inp.outputFilename = some s) :
    (consolidate e inp).prompted = false ∧
    (∀ ev ∈ (consolidate e inp).log, isWarn ev = false) ∧
    ∃ tbl, (consolidate e inp).result = RunResult.wrote (withCsvExt s) tbl ∧
      tbl.rows = mergedRows tbl.cols inp.files := by
  rw [hf] at hall hsub
  obtain ⟨t0, h0⟩ := Option.isSome_iff_exists.mp (hall f0 (List.mem_cons_self f0 rest))
  have hcoll : collectHeaders (f0 :: rest) =
      Except.ok ((f0 :: rest).map (fun f => (f.name, headersOfFile f))) :=
    collectHeaders_of_parse hall
  have hnew : newOf ((f0 :: rest).map (fun f => (f.name, headersOfFile f))) = [] :=
    newOf_eq_nil hsub
  have hmaster := consolidate_ok_explicit e inp f0 rest _ s t0 hf h0 hcoll hs
  have hpl : promptLogOf inp.response
      ((f0 :: rest).map (fun f => (f.name, headersOfFile f))) = [] := by
    unfold promptLogOf
    rw [hnew]
    simp
  refine ⟨?_, ?_, ?_⟩
  · rw [hmaster]
    show promptedOf ((f0 :: rest).map (fun f => (f.name, headersOfFile f))) = false
    unfold promptedOf
    rw [hnew]
    rfl
  · intro ev hev
    rw [hmaster] at hev
    replace hev : ev ∈ (LogEvent.foundFiles (f0 :: rest).length ::
        (promptLogOf inp.response ((f0 :: rest).map (fun f => (f.name, headersOfFile f))) ++
          mergeLogs (f0 :: rest))) ++ [LogEvent.infoConsolidated (withCsvExt s)] := hev
    rw [hpl] at hev
    simp only [List.nil_append, List.mem_append, List.mem_cons, List.mem_singleton,
      List.not_mem_nil, or_false] at hev
    rcases hev with (rfl | hev) | rfl
    · rfl
    · exact mergeLogs_not_warn _ ev hev
    · rfl
  · refine ⟨reindexTable
        (e (schemaOf inp.response ((f0 :: rest).map (fun f => (f.name, headersOfFile f)))))
        (concatTables (mergeFiles
          (e (schemaOf inp.response ((f0 :: rest).map (fun f => (f.name, headersOfFile f)))))
          (f0 :: rest))), ?_, ?_⟩
    · rw [hmaster]
    · rw [hf]
      exact rows_char _ (f0 :: rest)

/-- C9 witness: the second file lacks the date column of the first; the run
does not prompt, warns nothing, and writes the null-padded merge. -/
theorem C9_subset_silent_witness :
    (∀ f ∈ inpC9.files, (readCsv f).isSome = true) ∧
    (∀ f ∈ inpC9.files, ∀ c ∈ headersOfFile f, c ∈ headersOfFile fWide) ∧
    (consolidate idEnum inpC9).prompted = false ∧
    (∀ ev ∈ (consolidate idEnum inpC9).log, isWarn ev = false) ∧
    ∃ tbl, (consolidate idEnum inpC9).result = RunResult.wrote "out.csv" tbl ∧
      tbl.rows = mergedRows tbl.cols inpC9.files := by
  have h := C9_subset_silent idEnum inpC9 fWide [fNarrow] "out" rfl (by decide) (by decide) rfl
  exact ⟨by decide, by decide, h.1, h.2.1, h.2.2⟩


/-- C1 amended: with identical column sets across all files the run never
prompts, and the written column order is the set-iteration order of the
common header set: a permutation of the first file's columns, but not
necessarily equal to the first file's own order. -/
theorem C1_amended (e : List String → List String) (inp : RunInput)
    (f0 : InputFile) (rest : List InputFile) (s : String)
    (he : EnumValid e)
    (hf : inp.files = f0 :: rest)
    (hall : ∀ f ∈ inp.files, (readCsv f).isSome = true)
    (hset : ∀ f ∈ inp.files, (∀ c ∈ headersOfFile f, c ∈ headersOfFile f0) ∧
      (∀ c ∈ headersOfFile f0, c ∈ headersOfFile f))
    (hs : inp.outputFilename = some s) :
    (consolidate e inp).prompted = false ∧
    ∃ tbl, (consolidate e inp).result = RunResult.wrote (withCsvExt s) tbl ∧
      tbl.cols = e (schemaOf inp.response (byFileOf (f0 :: rest))) ∧
      tbl.cols.Perm (headersOfFile f0) := by
  rw [hf] at hall hset
  obtain ⟨t0, h0⟩ := Option.isSome_iff_exists.mp (hall f0 (List.mem_cons_self f0 rest))
  have hcoll : collectHeaders (f0 :: rest) = Except.ok (byFileOf (f0 :: rest)) :=
    collectHeaders_of_parse hall
  have hnew : newOf (byFileOf (f0 :: rest)) = [] :=
    newOf_eq_nil (fun f hfm => (hset f hfm).1)
  have hmaster := consolidate_ok_explicit e inp f0 rest _ s t0 hf h0 hcoll hs
  have hS : schemaOf inp.response (byFileOf (f0 :: rest)) =
      unionOf (byFileOf (f0 :: rest)) := by
    unfold schemaOf
    rw [hnew]
    rfl
  refine ⟨?_, ?_⟩
  · rw [hmaster]
    show promptedOf (byFileOf (f0 :: rest)) = false
    unfold promptedOf
    rw [hnew]
    rfl
  · refine ⟨reindexTable (e (schemaOf inp.response (byFileOf (f0 :: rest))))
        (concatTables (mergeFiles (e (schemaOf inp.response (byFileOf (f0 :: rest))))
          (f0 :: rest))), ?_, rfl, ?_⟩
    · rw [hmaster]
    · show (e (schemaOf inp.response (byFileOf (f0 :: rest)))).Perm (headersOfFile f0)
      have hperm2 : (unionOf (byFileOf (f0 :: rest))).Perm (headersOfFile f0) := by
        apply (List.perm_ext_iff_of_nodup (nodup_unionOf _) (nodup_headersOfFile f0)).mpr
        intro a
        rw [show unionOf (byFileOf (f0 :: rest)) =
          unionOf ((f0 :: rest).map (fun f => (f.name, headersOfFile f))) from rfl,
          mem_unionOf_headers]
        constructor
        · rintro ⟨f, hfm, hcf⟩
          exact (hset f hfm).1 a hcf
        · intro ha
          exact ⟨f0, List.mem_cons_self f0 rest, ha⟩
      rw [hS]
      exact (he _).trans hperm2

/-- C1 amended witness: two files with identical column sets; no prompt,
and the written columns are a permutation of the first file's. -/
theorem C1_amended_witness :
    (∀ f ∈ inpC1w.files, (readCsv f).isSome = true) ∧
    (consolidate idEnum inpC1w).prompted = false ∧
    ∃ tbl, (consolidate idEnum inpC1w).result = RunResult.wrote "out.csv" tbl ∧
      tbl.cols.Perm (headersOfFile fBase) := by
  have h := C1_amended idEnum inpC1w fBase [fNarrow] "out"
    (fun l => List.Perm.refl l) rfl (by decide) (by decide) rfl
  exact ⟨by decide, h.1, h.2.imp (fun tbl ht => ⟨ht.1, ht.2.2⟩)⟩

/-- C8 amended: with an explicit output name, any fully readable discovery
writes a table whose rows are exactly the source files' rows in order,
each projected onto the final column list: cells of retained source
columns appear unchanged, columns the file lacked are null, and cells of
source columns outside the final list (declined extras) are dropped. -/
theorem C8_amended (e : List String → List String) (inp : RunInput)
    (f0 : InputFile) (rest : List InputFile) (s : String)
    (hf : inp.files = f0 :: rest)
    (hall : ∀ f ∈ inp.files, (readCsv f).isSome = true)
    (hs : inp.outputFilename = some s) :
    ∃ tbl, (consolidate e inp).result = RunResult.wrote (withCsvExt s) tbl ∧
      tbl.rows = mergedRows tbl.cols inp.files := by
  rw [hf] at hall
  obtain ⟨t0, h0⟩ := Option.isSome_iff_exists.mp (hall f0 (List.mem_cons_self f0 rest))
  have hcoll : collectHeaders (f0 :: rest) = Except.ok (byFileOf (f0 :: rest)) :=
    collectHeaders_of_parse hall
  have hmaster := consolidate_ok_explicit e inp f0 rest _ s t0 hf h0 hcoll hs
  refine ⟨reindexTable (e (schemaOf inp.response (byFileOf (f0 :: rest))))
      (concatTables (mergeFiles (e (schemaOf inp.response (byFileOf (f0 :: rest))))
        (f0 :: rest))), ?_, ?_⟩
  · rw [hmaster]
  · rw [hf]
    exact rows_char _ (f0 :: rest)

/-- C8 amended witness: the extras-declined run writes exactly the
projected rows. -/
theorem C8_amended_witness :
    (∀ f ∈ inpC8.files, (readCsv f).isSome = true) ∧
    ∃ tbl, (consolidate idEnum inpC8).result = RunResult.wrote "out.csv" tbl ∧
      tbl.rows = mergedRows tbl.cols inpC8.files :=
  ⟨by decide, C8_amended idEnum inpC8 fBase [fExtra] "out" rfl (by decide) rfl⟩

/-- C6 amended: when some file has columns outside the base set, the run
logs the general warning and one per-file line listing that file's extra
columns, reads one line of input, and decides the schema by comparing the
lowercased answer with the single letter y: exactly y (any case) selects
the union of all column sets, every other answer, including yes, selects
the base columns only. -/
theorem C6_amended (e : List String → List String) (inp : RunInput)
    (f0 : InputFile) (rest : List InputFile) (s : String)
    (hf : inp.files = f0 :: rest)
    (hall : ∀ f ∈ inp.files, (readCsv f).isSome = true)
    (hnew : newOf (byFileOf inp.files) ≠ [])
    (hs : inp.outputFilename = some s) :
    (consolidate e inp).prompted = true ∧
    LogEvent.warnHeaderMismatch ∈ (consolidate e inp).log ∧
    (∀ p ∈ byFileOf inp.files, extrasOf (baseOf (byFileOf inp.files)) p.2 ≠ [] →
      LogEvent.warnExtra p.1 (extrasOf (baseOf (byFileOf inp.files)) p.2) ∈
        (consolidate e inp).log) ∧
    ∃ tbl, (consolidate e inp).result = RunResult.wrote (withCsvExt s) tbl ∧
      tbl.cols = e (if strToLower inp.response == "y" then unionOf (byFileOf inp.files)
                    else baseOf (byFileOf inp.files)) := by
  rw [hf] at hall hnew ⊢
  obtain ⟨t0, h0⟩ := Option.isSome_iff_exists.mp (hall f0 (List.mem_cons_self f0 rest))
  have hcoll : collectHeaders (f0 :: rest) = Except.ok (byFileOf (f0 :: rest)) :=
    collectHeaders_of_parse hall
  have hmaster := consolidate_ok_explicit e inp f0 rest _ s t0 hf h0 hcoll hs
  have hne : (newOf (byFileOf (f0 :: rest))).isEmpty = false := by
    cases hnn : newOf (byFileOf (f0 :: rest))
    · exact absurd hnn hnew
    · rfl
  have hwarnmem : ∀ ev ∈ warnLogOf (byFileOf (f0 :: rest)),
      ev ∈ (consolidate e inp).log := by
    intro ev hev
    rw [hmaster]
    show ev ∈ (LogEvent.foundFiles (f0 :: rest).length ::
        (promptLogOf inp.response (byFileOf (f0 :: rest)) ++ mergeLogs (f0 :: rest))) ++
        [LogEvent.infoConsolidated (withCsvExt s)]
    have hpl : ev ∈ promptLogOf inp.response (byFileOf (f0 :: rest)) := by
      unfold promptLogOf
      rw [hne]
      simp only [Bool.false_eq_true, if_false]
      by_cases hy : (strToLower inp.response == "y") = true
      · rw [if_pos hy]
        exact hev
      · rw [if_neg hy]
        exact List.mem_append_left _ hev
    simp only [List.cons_append, List.mem_cons, List.mem_append]
    exact Or.inr (Or.inl (Or.inl hpl))
  have hschema : schemaOf inp.response (byFileOf (f0 :: rest)) =
      if strToLower inp.response == "y" then unionOf (byFileOf (f0 :: rest))
      else baseOf (byFileOf (f0 :: rest)) := by
    unfold schemaOf
    rw [hne]
    simp
  refine ⟨?_, ?_, ?_, ?_⟩
  · rw [hmaster]
    show promptedOf (byFileOf (f0 :: rest)) = true
    unfold promptedOf
    rw [hne]
    rfl
  · exact hwarnmem _ (List.mem_cons_self _ _)
  · intro p hp hd
    apply hwarnmem
    unfold warnLogOf
    apply List.mem_cons_of_mem
    apply List.mem_filterMap.mpr
    refine ⟨p, hp, ?_⟩
    have hdne : (extrasOf (baseOf (byFileOf (f0 :: rest))) p.2).isEmpty = false := by
      cases hdd : extrasOf (baseOf (byFileOf (f0 :: rest))) p.2
      · exact absurd hdd hd
      · rfl
    simp only [hdne, Bool.false_eq_true, if_false]
  · refine ⟨reindexTable (e (schemaOf inp.response (byFileOf (f0 :: rest))))
        (concatTables (mergeFiles (e (schemaOf inp.response (byFileOf (f0 :: rest))))
          (f0 :: rest))), ?_, ?_⟩
    · rw [hmaster]
    · show e (schemaOf inp.response (byFileOf (f0 :: rest))) = _
      rw [hschema]

/-- C6 amended witness: answering with an uppercase Y selects the union,
including the Extra column, after the warning and the prompt. -/
theorem C6_amended_witness :
    (∀ f ∈ inpC6w.files, (readCsv f).isSome = true) ∧
    newOf (byFileOf inpC6w.files) ≠ [] ∧
    (consolidate idEnum inpC6w).prompted = true ∧
    LogEvent.warnHeaderMismatch ∈ (consolidate idEnum inpC6w).log ∧
    resultCols (consolidate idEnum inpC6w).result =
      some ["ID", "Timestamp", "Transaction Type", "Extra"] := by
  have h := C6_amended idEnum inpC6w fBase [fExtra] "out" rfl (by decide) (by decide) rfl
  exact ⟨by decide, by decide, h.1, h.2.1, by decide⟩

/-- C4 amended: two runs on the same inputs with the same explicit output
name produce the same log, the same prompting, and the same output
filename; the written tables hold the same rows in the same order with
identical cell values per column name, and their column orders are
permutations of each other (each run's Python set-iteration order).
Byte-identical output is not guaranteed, only equality up to this column
permutation. -/
theorem C4_amended (e1 e2 : List String → List String) (inp : RunInput) (s : String)
    (h1 : EnumValid e1) (h2 : EnumValid e2)
    (hs : inp.outputFilename = some s) :
    (consolidate e1 inp).log = (consolidate e2 inp).log ∧
    (consolidate e1 inp).prompted = (consolidate e2 inp).prompted ∧
    resultName (consolidate e1 inp).result = resultName (consolidate e2 inp).result ∧
    ∀ n t1, (consolidate e1 inp).result = RunResult.wrote n t1 →
      ∃ t2, (consolidate e2 inp).result = RunResult.wrote n t2 ∧
        t1.cols.Perm t2.cols ∧ t1.rows.length = t2.rows.length ∧
        ∀ c, t1.rows.map (fun r => rowGet r c) = t2.rows.map (fun r => rowGet r c) := by
  obtain ⟨files, resp, now, outn⟩ := inp
  simp only at hs
  subst hs
  cases files with
  | nil =>
    exact ⟨rfl, rfl, rfl, fun n t1 h => by simp [consolidate] at h⟩
  | cons f0 rest =>
    cases hc : collectHeaders (f0 :: rest) with
    | error bn =>
      have k1 := consolidate_error_char e1 ⟨f0 :: rest, resp, now, some s⟩ f0 rest bn rfl hc
      have k2 := consolidate_error_char e2 ⟨f0 :: rest, resp, now, some s⟩ f0 rest bn rfl hc
      rw [k1, k2]
      exact ⟨rfl, rfl, rfl, fun n t1 h => by cases h⟩
    | ok byFile =>
      obtain ⟨t0, rest2, h0, hr2, hby⟩ := collectHeaders_ok_cons hc
      have k1 := consolidate_ok_explicit e1 ⟨f0 :: rest, resp, now, some s⟩
        f0 rest byFile s t0 rfl h0 hc rfl
      have k2 := consolidate_ok_explicit e2 ⟨f0 :: rest, resp, now, some s⟩
        f0 rest byFile s t0 rfl h0 hc rfl
      rw [k1, k2]
      refine ⟨rfl, rfl, rfl, ?_⟩
      intro n t1 h
      replace h : RunResult.wrote (withCsvExt s)
          (reindexTable (e1 (schemaOf resp byFile))
            (concatTables (mergeFiles (e1 (schemaOf resp byFile)) (f0 :: rest)))) =
          RunResult.wrote n t1 := h
      cases h
      refine ⟨reindexTable (e2 (schemaOf resp byFile))
          (concatTables (mergeFiles (e2 (schemaOf resp byFile)) (f0 :: rest))), rfl, ?_, ?_, ?_⟩
      · exact (h1 _).trans (h2 _).symm
      · have r1 : (reindexTable (e1 (schemaOf resp byFile))
            (concatTables (mergeFiles (e1 (schemaOf resp byFile)) (f0 :: rest)))).rows =
            mergedRows (e1 (schemaOf resp byFile)) (f0 :: rest) := rows_char _ _
        have r2 : (reindexTable (e2 (schemaOf resp byFile))
            (concatTables (mergeFiles (e2 (schemaOf resp byFile)) (f0 :: rest)))).rows =
            mergedRows (e2 (schemaOf resp byFile)) (f0 :: rest) := rows_char _ _
        rw [r1, r2]
        exact mergedRows_length _ _ _
      · intro c
        have r1 : (reindexTable (e1 (schemaOf resp byFile))
            (concatTables (mergeFiles (e1 (schemaOf resp byFile)) (f0 :: rest)))).rows =
            mergedRows (e1 (schemaOf resp byFile)) (f0 :: rest) := rows_char _ _
        have r2 : (reindexTable (e2 (schemaOf resp byFile))
            (concatTables (mergeFiles (e2 (schemaOf resp byFile)) (f0 :: rest)))).rows =
            mergedRows (e2 (schemaOf resp byFile)) (f0 :: rest) := rows_char _ _
        rw [r1, r2]
        refine mergedRows_rowGet _ _ _ (fun x => hasCol_ext (fun y => ?_) x) c
        exact Iff.trans ((h1 (schemaOf resp byFile)).mem_iff)
          ((h2 (schemaOf resp byFile)).mem_iff).symm

/-- C4 amended witness: the identity and reversed iteration orders give
runs with the same log and the same output filename on the single-file
input (their written bytes differ only by column order). -/
theorem C4_amended_witness :
    EnumValid idEnum ∧ EnumValid revEnum ∧
    (consolidate idEnum inpSingle).log = (consolidate revEnum inpSingle).log ∧
    resultName (consolidate idEnum inpSingle).result =
      resultName (consolidate revEnum inpSingle).result := by
  have h := C4_amended idEnum revEnum inpSingle "out"
    (fun l => List.Perm.refl l) (fun l => l.reverse_perm) rfl
  exact ⟨fun l => List.Perm.refl l, fun l => l.reverse_perm, h.1, h.2.2.1⟩

theorem parseDateColumn_some {cells : List Cell} {ds : List (Option PDate)}
    (h : parseDateColumn cells = some ds) :
    parseAllDates (cells.filterMap id) = some (ds.filterMap id) := by
  induction cells generalizing ds with
  | nil =>
    replace h : (some [] : Option (List (Option PDate))) = some ds := h
    cases h
    rfl
  | cons c cs ih =>
    cases hc : parseCellDate c with
    | none => simp [parseDateColumn, hc] at h
    | some d0 =>
      cases hcs : parseDateColumn cs with
      | none => simp [parseDateColumn, hc, hcs] at h
      | some ds0 =>
        simp only [parseDateColumn, hc, hcs, Option.some.injEq] at h
        subst h
        cases c with
        | none =>
          replace hc : (some none : Option (Option PDate)) = some d0 := hc
          cases hc
          simpa [List.filterMap_cons] using ih hcs
        | some str =>
          cases hps : parseIsoDate str with
          | none => simp [parseCellDate, hps] at hc
          | some d1 =>
            replace hc : (some (some d1) : Option (Option PDate)) = some d0 := by
              rw [← hc]; simp [parseCellDate, hps]
            cases hc
            simp only [List.filterMap_cons, id, parseAllDates, hps, ih hcs]

theorem parseDateColumn_none {cells : List Cell}
    (h : parseDateColumn cells = none) :
    parseAllDates (cells.filterMap id) = none := by
  induction cells with
  | nil => simp [parseDateColumn] at h
  | cons c cs ih =>
    cases hc : parseCellDate c with
    | none =>
      cases c with
      | none => simp [parseCellDate] at hc
      | some str =>
        cases hps : parseIsoDate str with
        | none => simp [List.filterMap_cons, id, parseAllDates, hps]
        | some d1 => simp [parseCellDate, hps] at hc
    | some d0 =>
      cases hcs : parseDateColumn cs with
      | some ds0 => simp [parseDateColumn, hc, hcs] at h
      | none =>
        have hrest := ih hcs
        cases c with
        | none => simpa [List.filterMap_cons] using hrest
        | some str =>
          cases hps : parseIsoDate str with
          | none => simp [parseCellDate, hps] at hc
          | some d1 => simp [List.filterMap_cons, id, parseAllDates, hps, hrest]

theorem getCsvDateAux_spec (t : Table) (cols : List String)
    (h : getCsvDateAux t cols ≠ some none) :
    getCsvDateAux t cols = (specRepDateAux t cols).map some := by
  induction cols with
  | nil => rfl
  | cons c cs ih =>
    by_cases hd : isDateName c = true
    · cases hp : parseDateColumn (columnCells t c) with
      | none =>
        have heq : getCsvDateAux t (c :: cs) = getCsvDateAux t cs := by
          simp only [getCsvDateAux, hd, if_true, hp]
        have hspec : specRepDateAux t (c :: cs) = specRepDateAux t cs := by
          simp only [specRepDateAux, hd, if_true, parseDateColumn_none hp]
        rw [heq, hspec]
        exact ih (heq ▸ h)
      | some ds =>
        have hsp := parseDateColumn_some hp
        cases hemp : ds.isEmpty with
        | true =>
          have hds : ds = [] := by
            cases ds
            · rfl
            · simp at hemp
          subst hds
          have heq : getCsvDateAux t (c :: cs) = getCsvDateAux t cs := by
            simp only [getCsvDateAux, hd, if_true, hp, List.isEmpty_nil, if_true]
          have hspec : specRepDateAux t (c :: cs) = specRepDateAux t cs := by
            simp only [specRepDateAux, hd, if_true, hsp, List.filterMap_nil]
          rw [heq, hspec]
          exact ih (heq ▸ h)
        | false =>
          have heq : getCsvDateAux t (c :: cs) = some (seriesMin ds) := by
            simp only [getCsvDateAux, hd, if_true, hp, hemp, Bool.false_eq_true, if_false]
          cases hfm : ds.filterMap id with
          | nil =>
            have : seriesMin ds = none := by simp [seriesMin, hfm]
            rw [heq, this] at h
            exact absurd rfl h
          | cons x xs =>
            have hmin : seriesMin ds = some (xs.foldl minKey x) := by
              simp [seriesMin, hfm]
            have hspec : specRepDateAux t (c :: cs) = some (xs.foldl minKey x) := by
              simp only [specRepDateAux, hd, if_true, hsp, hfm]
            rw [heq, hspec, hmin]
            rfl
    · have hdf : isDateName c = false := by
        cases hdd : isDateName c
        · rfl
        · exact absurd hdd hd
      have heq : getCsvDateAux t (c :: cs) = getCsvDateAux t cs := by
        simp only [getCsvDateAux, hdf, Bool.false_eq_true, if_false]
      have hspec : specRepDateAux t (c :: cs) = specRepDateAux t cs := by
        simp only [specRepDateAux, hdf, Bool.false_eq_true, if_false]
      rw [heq, hspec]
      exact ih (heq ▸ h)

theorem filterMap_getCsvDate_spec {dfs : List Table}
    (h : ∀ t ∈ dfs, getCsvDate t ≠ some none) :
    dfs.filterMap getCsvDate = (dfs.filterMap specRepDate).map some := by
  induction dfs with
  | nil => rfl
  | cons t ts ih =>
    have ht := getCsvDateAux_spec t t.cols (h t (List.mem_cons_self t ts))
    have hts := ih (fun u hu => h u (List.mem_cons_of_mem _ hu))
    cases hs : specRepDate t with
    | none =>
      have hg : getCsvDate t = none := by
        unfold getCsvDate
        rw [ht]
        unfold specRepDate at hs
        rw [hs]
        rfl
      simp [List.filterMap_cons, hg, hs, hts]
    | some v =>
      have hg : getCsvDate t = some (some v) := by
        unfold getCsvDate
        rw [ht]
        unfold specRepDate at hs
        rw [hs]
        rfl
      simp [List.filterMap_cons, hg, hs, hts]

theorem pyFoldMin_map_some (ds : List PDate) (d : PDate) :
    pyFoldMin (some d) (ds.map some) = some (ds.foldl minKey d) := by
  induction ds generalizing d with
  | nil => rfl
  | cons x xs ih =>
    simp only [List.map_cons, pyFoldMin, List.foldl_cons]
    have hstep : (if pyLt (some x) (some d) then some x else some d) =
        some (minKey d x) := by
      unfold pyLt minKey
      by_cases hlt : x.key < d.key
      · simp [hlt]
      · simp [hlt]
    rw [hstep]
    exact ih (minKey d x)

theorem pyFoldMax_map_some (ds : List PDate) (d : PDate) :
    pyFoldMax (some d) (ds.map some) = some (ds.foldl maxKey d) := by
  induction ds generalizing d with
  | nil => rfl
  | cons x xs ih =>
    simp only [List.map_cons, pyFoldMax, List.foldl_cons]
    have hstep : (if pyGt (some x) (some d) then some x else some d) =
        some (maxKey d x) := by
      unfold pyGt maxKey
      by_cases hlt : d.key < x.key
      · simp [hlt]
      · simp [hlt]
    rw [hstep]
    exact ih (maxKey d x)

/-- C5: whenever no table's accepted date column is entirely null (no NaT
representative arises), the derived filename is exactly the spec's: each
table's representative date is the minimum of the first date-named column
whose present values all parse, the name spans the global minimum through
the global maximum in MM-DD-YYYY, and the current date is the fallback;
in particular the two-file example (a date column holding 2024-01-05 and
2024-01-10 beside an unparseable Timestamp, and a Timestamp column holding
2024-02-01) derives consolidated_01-05-2024_thru_02-01-2024.csv. -/
theorem C5_characterization :
    (∀ (now : PDate) (dfs : List Table), (∀ t ∈ dfs, getCsvDate t ≠ some none) →
      generateDateRangeFilename now dfs = Except.ok (specFilename now dfs)) ∧
    resultName (consolidate idEnum inpC5).result =
      some "consolidated_01-05-2024_thru_02-01-2024.csv" := by
  constructor
  · intro now dfs hyp
    unfold generateDateRangeFilename specFilename
    rw [filterMap_getCsvDate_spec hyp]
    cases hrep : dfs.filterMap specRepDate with
    | nil => rfl
    | cons d ds =>
      simp only [List.map_cons]
      rw [pyFoldMin_map_some, pyFoldMax_map_some]
  · decide

/-- C5 witness: the padded tables of the example run satisfy the no-NaT
hypothesis, and the derived name equals the spec's. -/
theorem C5_characterization_witness :
    (∀ t ∈ dfsC5, getCsvDate t ≠ some none) ∧
    generateDateRangeFilename (PDate.mk 2025 1 1) dfsC5 =
      Except.ok (specFilename (PDate.mk 2025 1 1) dfsC5) :=
  ⟨by decide, C5_characterization.1 (PDate.mk 2025 1 1) dfsC5 (by decide)⟩

/-- C5 counterexample: a file whose Timestamp column holds one empty cell;
pandas turns it into NaT, the Series minimum is NaT, and formatting the
range raises, so the run aborts with no output filename at all, while the
claim prescribes the current-date fallback name (shown on the padded
tables of this run). -/
theorem C5_counterexample :
    inpC5x.outputFilename = none ∧
    specFilename inpC5x.now
        (mergeFiles ["ID", "Timestamp", "Transaction Type"] [fNaT]) =
      "consolidated_06-15-2025.csv" ∧
    (consolidate idEnum inpC5x).result = RunResult.aborted :=
  ⟨rfl, by decide, by decide⟩

end CsvConsolidator


